import Mathlib

/-!
# Verification of the bouncing-box demo (`examples/minimal-winit/src/main.rs`)

Shallow embedding of the in-scope core of the repository: the `World`
simulation state with its `update` (bounce physics) and `draw` (raster fill)
operations.  Machine integers (`i16` fields, `u8` buffer bytes) are modelled
as `Int` / `Nat`; the `as i16` casts in `draw` are modelled by an explicit
two's-complement truncation `toI16`, and separate theorems establish that no
`i16` overflow occurs on reachable states, so the exact-integer arithmetic
used elsewhere agrees with the machine arithmetic of the source.
-/

/-- `const WIDTH: u32 = 320;` -/
def WIDTH : Nat := 320

/-- `const HEIGHT: u32 = 240;` -/
def HEIGHT : Nat := 240

/-- `const BOX_SIZE: i16 = 64;` -/
def BOX_SIZE : Int := 64

/-- Two's-complement truncation of an integer to `i16`, the meaning of Rust's
`as i16` cast. -/
def toI16 (z : Int) : Int :=
  (z + 32768) % 65536 - 32768

/-- `struct World { box_x: i16, box_y: i16, velocity_x: i16, velocity_y: i16 }`.
Fields are `Int`; reachable states stay comfortably inside the `i16` range
(proved below). -/
structure World where
  box_x : Int
  box_y : Int
  velocity_x : Int
  velocity_y : Int
  deriving Repr, DecidableEq

/-- `World::new()`: box at (24,16), velocity (+1,+1). -/
def World.new : World :=
  { box_x := 24, box_y := 16, velocity_x := 1, velocity_y := 1 }

/-- `World::update()`: flip `velocity_x` when `box_x <= 0 || box_x + BOX_SIZE >
WIDTH`, flip `velocity_y` when `box_y <= 0 || box_y + BOX_SIZE > HEIGHT`, then
add the (possibly just-flipped) velocities to the position.  The source mutates
`self` in place (`self.velocity_x *= -1; ...; self.box_x += self.velocity_x`);
here the sequencing is captured by binding the updated velocities first. -/
def World.update (w : World) : World :=
  let vx := if w.box_x ≤ 0 ∨ w.box_x + BOX_SIZE > (WIDTH : Int) then -w.velocity_x else w.velocity_x
  let vy := if w.box_y ≤ 0 ∨ w.box_y + BOX_SIZE > (HEIGHT : Int) then -w.velocity_y else w.velocity_y
  { box_x := w.box_x + vx
    box_y := w.box_y + vy
    velocity_x := vx
    velocity_y := vy }

/-- The state after `n` calls to `update()` starting from `World::new()`. -/
def worldAfter : Nat → World
  | 0 => World.new
  | n + 1 => (worldAfter n).update

/-- The 4-byte RGBA group `draw` writes for pixel index `i`:
`x = (i % WIDTH as usize) as i16`, `y = (i / WIDTH as usize) as i16`,
box colour `[0x5e, 0x48, 0xe8, 0xff]` when `x >= box_x && x < box_x + BOX_SIZE
&& y >= box_y && y < box_y + BOX_SIZE`, background `[0x48, 0xb2, 0xe8, 0xff]`
otherwise. -/
def rgbaAt (w : World) (i : Nat) : List Nat :=
  if w.box_x ≤ toI16 ((i % WIDTH : Nat) : Int) ∧ toI16 ((i % WIDTH : Nat) : Int) < w.box_x + BOX_SIZE ∧
      w.box_y ≤ toI16 ((i / WIDTH : Nat) : Int) ∧ toI16 ((i / WIDTH : Nat) : Int) < w.box_y + BOX_SIZE then
    [0x5e, 0x48, 0xe8, 0xff]
  else
    [0x48, 0xb2, 0xe8, 0xff]

/-- The loop of `World::draw`: `frame.chunks_exact_mut(4).enumerate()`
overwrites each complete 4-byte chunk with `rgbaAt`; an incomplete trailing
chunk (fewer than 4 bytes) is left untouched by `chunks_exact_mut`. -/
def drawAux (w : World) (i : Nat) : List Nat → List Nat
  | _ :: _ :: _ :: _ :: rest => rgbaAt w i ++ drawAux w (i + 1) rest
  | rest => rest

/-- `World::draw(&self, frame: &mut [u8])`: the new contents of the frame
buffer. -/
def World.draw (w : World) (frame : List Nat) : List Nat :=
  drawAux w 0 frame

/-- `draw` as a state transformer on `(self, frame)`: `&self` means the
simulation state is passed through unchanged. -/
def World.drawPair (w : World) (frame : List Nat) : World × List Nat :=
  (w, w.draw frame)

/-- The concatenation of the RGBA groups for `k` consecutive pixel indices
starting at `i`. -/
def pixelsFrom (w : World) (i : Nat) : Nat → List Nat
  | 0 => []
  | k + 1 => rgbaAt w i ++ pixelsFrom w (i + 1) k

/-- Inductive invariant of the horizontal axis: position/velocity pairs that
actually recur under the bounce dynamics on `[0, 320)` with box side 64. -/
def InvX (x v : Int) : Prop :=
  (v = 1 ∧ 1 ≤ x ∧ x ≤ 257) ∨ (v = -1 ∧ 0 ≤ x ∧ x ≤ 256)

/-- Inductive invariant of the vertical axis. -/
def InvY (y v : Int) : Prop :=
  (v = 1 ∧ 1 ≤ y ∧ y ≤ 177) ∨ (v = -1 ∧ 0 ≤ y ∧ y ≤ 176)

/-- Inductive invariant of the full simulation state. -/
def WorldInv (w : World) : Prop :=
  InvX w.box_x w.velocity_x ∧ InvY w.box_y w.velocity_y

lemma inv_new : WorldInv World.new := by
  constructor
  · exact Or.inl (by constructor <;> simp [World.new])
  · exact Or.inl (by constructor <;> simp [World.new])

lemma inv_update {w : World} (h : WorldInv w) : WorldInv w.update := by
  obtain ⟨hx, hy⟩ := h
  unfold WorldInv InvX InvY at *
  simp only [World.update, WIDTH, HEIGHT, BOX_SIZE]
  constructor
  · split <;> omega
  · split <;> omega

lemma inv_worldAfter (n : Nat) : WorldInv (worldAfter n) := by
  induction n with
  | zero => exact inv_new
  | succ n ih => exact inv_update ih

/-! ## Facts about `draw` -/

lemma rgbaAt_length (w : World) (i : Nat) : (rgbaAt w i).length = 4 := by
  unfold rgbaAt; split <;> rfl

lemma drop_four_rgba (w : World) (i : Nat) (l : List Nat) :
    List.drop 4 (rgbaAt w i ++ l) = l := by
  unfold rgbaAt; split <;> rfl

lemma take_four_rgba (w : World) (i : Nat) (l : List Nat) :
    List.take 4 (rgbaAt w i ++ l) = rgbaAt w i := by
  unfold rgbaAt; split <;> rfl

/-- `chunks_exact_mut(4)` semantics: `drawAux` rewrites the complete 4-byte
chunks and leaves the incomplete tail untouched. -/
lemma drawAux_eq (w : World) :
    ∀ (n : Nat) (frame : List Nat), frame.length ≤ n → ∀ i,
      drawAux w i frame = pixelsFrom w i (frame.length / 4) ++ frame.drop (4 * (frame.length / 4)) := by
  intro n
  induction n with
  | zero =>
    intro frame h i
    have hnil : frame = [] := List.length_eq_zero.mp (Nat.le_zero.mp h)
    subst hnil
    rfl
  | succ n ih =>
    intro frame h i
    match frame with
    | [] => rfl
    | [a] => simp [drawAux, pixelsFrom]
    | [a, b] => simp [drawAux, pixelsFrom]
    | [a, b, c] => simp [drawAux, pixelsFrom]
    | a :: b :: c :: d :: rest =>
      have hr : rest.length ≤ n := by simp at h; omega
      have e1 : (a :: b :: c :: d :: rest).length / 4 = rest.length / 4 + 1 := by
        simp; omega
      have e2 : List.drop (4 * (rest.length / 4) + 4) (a :: b :: c :: d :: rest)
          = List.drop (4 * (rest.length / 4)) rest := rfl
      calc drawAux w i (a :: b :: c :: d :: rest)
          = rgbaAt w i ++ (pixelsFrom w (i + 1) (rest.length / 4)
              ++ rest.drop (4 * (rest.length / 4))) := by
            rw [show drawAux w i (a :: b :: c :: d :: rest)
                = rgbaAt w i ++ drawAux w (i + 1) rest from rfl, ih rest hr]
        _ = (rgbaAt w i ++ pixelsFrom w (i + 1) (rest.length / 4))
              ++ rest.drop (4 * (rest.length / 4)) := by
            rw [List.append_assoc]
        _ = pixelsFrom w i (rest.length / 4 + 1) ++ rest.drop (4 * (rest.length / 4)) := by
            rw [pixelsFrom]
        _ = pixelsFrom w i ((a :: b :: c :: d :: rest).length / 4)
              ++ (a :: b :: c :: d :: rest).drop
                  (4 * ((a :: b :: c :: d :: rest).length / 4)) := by
            rw [e1, show 4 * (rest.length / 4 + 1) = 4 * (rest.length / 4) + 4 from by ring, e2]

/-- Closed form of `draw`: the complete 4-byte groups are overwritten with the
pixel colours, the trailing `length % 4` bytes are untouched. -/
lemma draw_eq (w : World) (frame : List Nat) :
    w.draw frame = pixelsFrom w 0 (frame.length / 4) ++ frame.drop (4 * (frame.length / 4)) :=
  drawAux_eq w frame.length frame (Nat.le_refl _) 0

lemma pixelsFrom_length (w : World) : ∀ (k i : Nat), (pixelsFrom w i k).length = 4 * k := by
  intro k
  induction k with
  | zero => intro i; rfl
  | succ k ih =>
    intro i
    simp [pixelsFrom, rgbaAt_length, ih]
    ring

lemma draw_length (w : World) (frame : List Nat) :
    (w.draw frame).length = frame.length := by
  rw [draw_eq]
  simp [pixelsFrom_length]
  omega

lemma pixelsFrom_drop (w : World) :
    ∀ (j k i : Nat), j ≤ k →
      (pixelsFrom w i k).drop (4 * j) = pixelsFrom w (i + j) (k - j) := by
  intro j
  induction j with
  | zero => intro k i h; simp
  | succ j ih =>
    intro k i h
    cases k with
    | zero => exact absurd h (by omega)
    | succ k =>
      have h1 : 4 * (j + 1) = 4 * j + 4 := by ring
      calc (pixelsFrom w i (k + 1)).drop (4 * (j + 1))
          = ((rgbaAt w i ++ pixelsFrom w (i + 1) k).drop 4).drop (4 * j) := by
            rw [pixelsFrom, h1, Nat.add_comm (4 * j) 4, ← List.drop_drop]
        _ = (pixelsFrom w (i + 1) k).drop (4 * j) := by rw [drop_four_rgba]
        _ = pixelsFrom w (i + 1 + j) (k - j) := ih k (i + 1) (Nat.le_of_succ_le_succ h)
        _ = pixelsFrom w (i + (j + 1)) (k + 1 - (j + 1)) := by
            rw [show i + 1 + j = i + (j + 1) from by ring, Nat.succ_sub_succ]

lemma pixelsFrom_succ_shape (w : World) (i m : Nat) :
    pixelsFrom w i (m + 1) = rgbaAt w i ++ pixelsFrom w (i + 1) m := rfl

/-- The 4-byte group at pixel index `i` of a drawn buffer is `rgbaAt w i`
whenever the buffer holds at least `i + 1` complete chunks. -/
lemma draw_pixel (w : World) (frame : List Nat) (i : Nat) (h : i < frame.length / 4) :
    ((w.draw frame).drop (4 * i)).take 4 = rgbaAt w i := by
  rw [draw_eq]
  have hle : 4 * i ≤ (pixelsFrom w 0 (frame.length / 4)).length := by
    rw [pixelsFrom_length]; omega
  rw [List.drop_append_of_le_length hle, pixelsFrom_drop w i (frame.length / 4) 0 (Nat.le_of_lt h)]
  obtain ⟨m, hm⟩ : ∃ m, frame.length / 4 - i = m + 1 := ⟨frame.length / 4 - i - 1, by omega⟩
  rw [hm, pixelsFrom_succ_shape, Nat.zero_add, List.append_assoc, take_four_rgba]

lemma draw_drop_tail (w : World) (frame : List Nat) :
    (w.draw frame).drop (4 * (frame.length / 4)) = frame.drop (4 * (frame.length / 4)) := by
  rw [draw_eq, List.drop_left' (pixelsFrom_length w (frame.length / 4) 0)]

lemma draw_idem_helper (w : World) (frame : List Nat) :
    w.draw (w.draw frame) = w.draw frame := by
  rw [draw_eq w (w.draw frame), draw_length, draw_drop_tail, ← draw_eq]

lemma rgbaAt_congr {w w' : World} (hx : w.box_x = w'.box_x) (hy : w.box_y = w'.box_y)
    (i : Nat) : rgbaAt w i = rgbaAt w' i := by
  unfold rgbaAt; rw [hx, hy]

lemma pixelsFrom_congr {w w' : World} (hx : w.box_x = w'.box_x) (hy : w.box_y = w'.box_y) :
    ∀ (k i : Nat), pixelsFrom w i k = pixelsFrom w' i k := by
  intro k
  induction k with
  | zero => intro i; rfl
  | succ k ih => intro i; rw [pixelsFrom_succ_shape, pixelsFrom_succ_shape,
      rgbaAt_congr hx hy, ih]

lemma draw_congr {w w' : World} (hx : w.box_x = w'.box_x) (hy : w.box_y = w'.box_y)
    (frame : List Nat) : w.draw frame = w'.draw frame := by
  rw [draw_eq, draw_eq, pixelsFrom_congr hx hy]

lemma toI16_small {z : Int} (h0 : 0 ≤ z) (h1 : z < 32768) : toI16 z = z := by
  unfold toI16; omega

/-! ## Claim theorems -/

/-- C3: every state reachable from the initial state `(24, 16, +1, +1)` by
repeated `update()` has a box rectangle `[box_x, box_x+64) × [box_y, box_y+64)`
with non-empty intersection with the canvas `[0, 320) × [0, 240)`, and no edge
coordinate of the box rectangle lies more than 1 (the per-step velocity
magnitude) outside a canvas bound. -/
theorem reachable_box_meets_canvas (n : Nat) :
    (∃ p : Int, (worldAfter n).box_x ≤ p ∧ p < (worldAfter n).box_x + BOX_SIZE ∧
      0 ≤ p ∧ p < (WIDTH : Int)) ∧
    (∃ q : Int, (worldAfter n).box_y ≤ q ∧ q < (worldAfter n).box_y + BOX_SIZE ∧
      0 ≤ q ∧ q < (HEIGHT : Int)) ∧
    -1 ≤ (worldAfter n).box_x ∧ (worldAfter n).box_x + BOX_SIZE ≤ (WIDTH : Int) + 1 ∧
    -1 ≤ (worldAfter n).box_y ∧ (worldAfter n).box_y + BOX_SIZE ≤ (HEIGHT : Int) + 1 := by
  obtain ⟨hx, hy⟩ := inv_worldAfter n
  unfold InvX at hx
  unfold InvY at hy
  refine ⟨⟨(worldAfter n).box_x, ?_⟩, ⟨(worldAfter n).box_y, ?_⟩, ?_⟩ <;>
    simp only [WIDTH, HEIGHT, BOX_SIZE] <;> push_cast <;> omega

/-- C4 counterexample: the claimed bounds `box_x ≤ 256` and `box_y ≤ 176` are
violated on the actual trajectory: after 233 updates `box_x = 257`, and after
161 updates `box_y = 177`. -/
theorem trajectory_exceeds_claimed_bounds :
    (worldAfter 233).box_x = 257 ∧ ¬((worldAfter 233).box_x ≤ 256) ∧
    (worldAfter 161).box_y = 177 ∧ ¬((worldAfter 161).box_y ≤ 176) := by
  set_option maxRecDepth 8000 in decide

/-- C4 (amended): for every number of `update()` steps from the initial state,
`box_x` stays within `[-1, 257]` and `box_y` stays within `[-1, 177]`. -/
theorem trajectory_coordinate_bounds (n : Nat) :
    -1 ≤ (worldAfter n).box_x ∧ (worldAfter n).box_x ≤ 257 ∧
    -1 ≤ (worldAfter n).box_y ∧ (worldAfter n).box_y ≤ 177 := by
  obtain ⟨hx, hy⟩ := inv_worldAfter n
  unfold InvX at hx
  unfold InvY at hy
  omega

/-- C5: `update()` applies reflection before moving, independently per axis:
the new velocities are the old ones negated exactly when the pre-update
position triggers the boundary test, and the new position is the old position
plus the new (possibly just-flipped) velocity; in particular from `box_x = 0`,
`velocity_x = +1` one update yields `velocity_x = -1`, `box_x = -1`. -/
theorem update_reflects_before_moving :
    (∀ w : World,
      (w.update).velocity_x =
        (if w.box_x ≤ 0 ∨ w.box_x + BOX_SIZE > (WIDTH : Int) then -w.velocity_x
         else w.velocity_x) ∧
      (w.update).velocity_y =
        (if w.box_y ≤ 0 ∨ w.box_y + BOX_SIZE > (HEIGHT : Int) then -w.velocity_y
         else w.velocity_y) ∧
      (w.update).box_x = w.box_x + (w.update).velocity_x ∧
      (w.update).box_y = w.box_y + (w.update).velocity_y) ∧
    (∀ w : World, w.box_x = 0 → w.velocity_x = 1 →
      (w.update).velocity_x = -1 ∧ (w.update).box_x = -1) := by
  constructor
  · exact fun w => ⟨rfl, rfl, rfl, rfl⟩
  · intro w h0 h1
    simp [World.update, h0, h1]

/-- Witness for C5 at the concrete state `(box_x, box_y, vx, vy) = (0, 16, 1, 1)`. -/
theorem update_reflects_before_moving_witness :
    ((World.mk 0 16 1 1).update).velocity_x = -1 ∧ ((World.mk 0 16 1 1).update).box_x = -1 :=
  update_reflects_before_moving.2 (World.mk 0 16 1 1) rfl rfl

/-- C7: both velocities are `±1` initially, and `update()` preserves
membership of both velocities in `{+1, -1}` from every state. -/
theorem velocities_stay_unit :
    (World.new.velocity_x = 1 ∨ World.new.velocity_x = -1) ∧
    (World.new.velocity_y = 1 ∨ World.new.velocity_y = -1) ∧
    ∀ w : World,
      (w.velocity_x = 1 ∨ w.velocity_x = -1) →
      (w.velocity_y = 1 ∨ w.velocity_y = -1) →
      ((w.update).velocity_x = 1 ∨ (w.update).velocity_x = -1) ∧
      ((w.update).velocity_y = 1 ∨ (w.update).velocity_y = -1) := by
  refine ⟨Or.inl rfl, Or.inl rfl, ?_⟩
  intro w hx hy
  simp only [World.update]
  constructor <;> split <;> omega

/-- Witness for C7 at the initial state. -/
theorem velocities_stay_unit_witness :
    ((World.new.update).velocity_x = 1 ∨ (World.new.update).velocity_x = -1) ∧
    ((World.new.update).velocity_y = 1 ∨ (World.new.update).velocity_y = -1) :=
  velocities_stay_unit.2.2 World.new (Or.inl rfl) (Or.inl rfl)

/-- C8: `update()` is a total pure function (it always yields a successor
state), and along the whole trajectory from the initial state every value the
`i16` arithmetic of the source produces — the fields themselves, the sums
`box_x + BOX_SIZE`, `box_y + BOX_SIZE` tested against the bounds, and the
negated velocities — stays strictly inside the `i16` range, so no overflow
occurs. -/
theorem update_total_and_no_i16_overflow :
    (∀ w : World, ∃ w' : World, w.update = w') ∧
    ∀ n : Nat,
      -32768 ≤ (worldAfter n).box_x ∧ (worldAfter n).box_x + BOX_SIZE ≤ 32767 ∧
      -32768 ≤ (worldAfter n).box_y ∧ (worldAfter n).box_y + BOX_SIZE ≤ 32767 ∧
      -32767 ≤ (worldAfter n).velocity_x ∧ (worldAfter n).velocity_x ≤ 32767 ∧
      -32767 ≤ (worldAfter n).velocity_y ∧ (worldAfter n).velocity_y ≤ 32767 := by
  refine ⟨fun w => ⟨w.update, rfl⟩, fun n => ?_⟩
  obtain ⟨hx, hy⟩ := inv_worldAfter n
  unfold InvX at hx
  unfold InvY at hy
  unfold BOX_SIZE
  omega

/-- C1 counterexample: `draw` does not fail on a length-mismatched buffer.  On
the 5-byte buffer `[1, 2, 3, 4, 5]` (length ≠ 320*240*4) it returns normally
and silently overwrites the first complete 4-byte group with the background
colour, leaving the fifth byte unchanged — there is no length check and no
error. -/
theorem draw_short_buffer_written_silently :
    World.new.draw [1, 2, 3, 4, 5] = [0x48, 0xb2, 0xe8, 0xff, 5] ∧
    ([1, 2, 3, 4, 5] : List Nat).length ≠ WIDTH * HEIGHT * 4 := by
  decide

/-- C1 (amended): for every buffer whose length is not exactly
`WIDTH * HEIGHT * 4`, `draw` performs no length check and reports no error: it
returns normally, preserving the buffer length, overwriting exactly the
complete 4-byte groups and leaving the trailing bytes unchanged (silent
silent partial writing instead of a length-mismatch failure). -/
theorem draw_mismatched_length_no_error (w : World) (frame : List Nat)
    (_h : frame.length ≠ WIDTH * HEIGHT * 4) :
    (w.draw frame).length = frame.length ∧
    w.draw frame = pixelsFrom w 0 (frame.length / 4) ++ frame.drop (4 * (frame.length / 4)) ∧
    (w.draw frame).drop (4 * (frame.length / 4)) = frame.drop (4 * (frame.length / 4)) :=
  ⟨draw_length w frame, draw_eq w frame, draw_drop_tail w frame⟩

/-- Witness for C1 (amended) at the 5-byte buffer `[1, 2, 3, 4, 5]`. -/
theorem draw_mismatched_length_no_error_witness :
    ([1, 2, 3, 4, 5] : List Nat).length ≠ WIDTH * HEIGHT * 4 ∧
    ((World.new.draw [1, 2, 3, 4, 5]).length = ([1, 2, 3, 4, 5] : List Nat).length ∧
      World.new.draw [1, 2, 3, 4, 5] =
        pixelsFrom World.new 0 (([1, 2, 3, 4, 5] : List Nat).length / 4) ++
          ([1, 2, 3, 4, 5] : List Nat).drop (4 * (([1, 2, 3, 4, 5] : List Nat).length / 4)) ∧
      (World.new.draw [1, 2, 3, 4, 5]).drop (4 * (([1, 2, 3, 4, 5] : List Nat).length / 4)) =
        ([1, 2, 3, 4, 5] : List Nat).drop (4 * (([1, 2, 3, 4, 5] : List Nat).length / 4))) :=
  ⟨by decide, draw_mismatched_length_no_error World.new [1, 2, 3, 4, 5] (by decide)⟩

/-- C2: on a buffer of length exactly `WIDTH * HEIGHT * 4`, the 4-byte group at
pixel index `i` (`x = i % 320`, `y = i / 320`, row-major from the top-left) is
the box colour `[0x5e, 0x48, 0xe8, 0xff]` exactly when `box_x ≤ x < box_x + 64`
and `box_y ≤ y < box_y + 64`, and the background colour `[0x48, 0xb2, 0xe8,
0xff]` otherwise; in particular with the box at `(24, 16)` pixels `(24, 16)`
and `(87, 16)` get the box colour while `(23, 16)` and `(88, 16)` get the
background colour. -/
theorem draw_pixel_classification :
    (∀ (w : World) (frame : List Nat), frame.length = WIDTH * HEIGHT * 4 →
      ∀ i : Nat, i < WIDTH * HEIGHT →
        ((w.draw frame).drop (4 * i)).take 4 =
          if w.box_x ≤ ((i % WIDTH : Nat) : Int) ∧ ((i % WIDTH : Nat) : Int) < w.box_x + BOX_SIZE ∧
              w.box_y ≤ ((i / WIDTH : Nat) : Int) ∧ ((i / WIDTH : Nat) : Int) < w.box_y + BOX_SIZE
          then [0x5e, 0x48, 0xe8, 0xff]
          else [0x48, 0xb2, 0xe8, 0xff]) ∧
    (∀ frame : List Nat, frame.length = WIDTH * HEIGHT * 4 →
      ((World.new.draw frame).drop (4 * (16 * 320 + 24))).take 4 = [0x5e, 0x48, 0xe8, 0xff] ∧
      ((World.new.draw frame).drop (4 * (16 * 320 + 87))).take 4 = [0x5e, 0x48, 0xe8, 0xff] ∧
      ((World.new.draw frame).drop (4 * (16 * 320 + 23))).take 4 = [0x48, 0xb2, 0xe8, 0xff] ∧
      ((World.new.draw frame).drop (4 * (16 * 320 + 88))).take 4 = [0x48, 0xb2, 0xe8, 0xff]) := by
  have main : ∀ (w : World) (frame : List Nat), frame.length = WIDTH * HEIGHT * 4 →
      ∀ i : Nat, i < WIDTH * HEIGHT →
        ((w.draw frame).drop (4 * i)).take 4 =
          if w.box_x ≤ ((i % WIDTH : Nat) : Int) ∧ ((i % WIDTH : Nat) : Int) < w.box_x + BOX_SIZE ∧
              w.box_y ≤ ((i / WIDTH : Nat) : Int) ∧ ((i / WIDTH : Nat) : Int) < w.box_y + BOX_SIZE
          then [0x5e, 0x48, 0xe8, 0xff]
          else [0x48, 0xb2, 0xe8, 0xff] := by
    intro w frame hlen i hi
    have hi4 : i < frame.length / 4 := by
      rw [hlen]
      simp only [WIDTH, HEIGHT] at hi ⊢
      omega
    rw [draw_pixel w frame i hi4]
    unfold rgbaAt
    rw [toI16_small (Int.natCast_nonneg _) (by
        have hm : i % WIDTH < WIDTH := Nat.mod_lt i (by unfold WIDTH; omega)
        simp only [WIDTH] at hm ⊢
        push_cast
        omega),
      toI16_small (Int.natCast_nonneg _) (by
        have hd : i / WIDTH < HEIGHT := by
          simp only [WIDTH, HEIGHT] at hi ⊢
          omega
        simp only [WIDTH, HEIGHT] at hd ⊢
        push_cast
        omega)]
  refine ⟨main, ?_⟩
  intro frame hlen
  refine ⟨?_, ?_, ?_, ?_⟩ <;>
    [rw [main World.new frame hlen (16 * 320 + 24) (by norm_num [WIDTH, HEIGHT])];
     rw [main World.new frame hlen (16 * 320 + 87) (by norm_num [WIDTH, HEIGHT])];
     rw [main World.new frame hlen (16 * 320 + 23) (by norm_num [WIDTH, HEIGHT])];
     rw [main World.new frame hlen (16 * 320 + 88) (by norm_num [WIDTH, HEIGHT])]] <;>
    norm_num [World.new, WIDTH, BOX_SIZE]

/-- Witness for C2 at the all-zero buffer of length 320*240*4: pixel
`(24, 16)` of the drawn frame is the box colour. -/
theorem draw_pixel_classification_witness :
    ((World.new.draw (List.replicate 307200 0)).drop (4 * (16 * 320 + 24))).take 4 =
      [0x5e, 0x48, 0xe8, 0xff] :=
  (draw_pixel_classification.2 (List.replicate 307200 0)
    (by rw [List.length_replicate]; norm_num [WIDTH, HEIGHT])).1

/-- C6: `draw` is deterministic in the state and idempotent: a second `draw`
with the same state leaves the buffer byte-identical. -/
theorem draw_idempotent (w : World) (frame : List Nat) :
    w.draw (w.draw frame) = w.draw frame := by
  rw [draw_eq w (w.draw frame), draw_length, draw_drop_tail, ← draw_eq]

/-- C9: `draw` passed as a state transformer leaves the simulation state
`(box_x, box_y, velocity_x, velocity_y)` unchanged and writes only the buffer;
moreover it reads nothing from the state beyond the box position: two states
agreeing on `box_x` and `box_y` draw byte-identical buffers. -/
theorem draw_touches_only_buffer :
    (∀ (w : World) (frame : List Nat),
      (w.drawPair frame).1 = w ∧ (w.drawPair frame).2 = w.draw frame) ∧
    (∀ (w w' : World) (frame : List Nat),
      w.box_x = w'.box_x → w.box_y = w'.box_y → w.draw frame = w'.draw frame) :=
  ⟨fun _ _ => ⟨rfl, rfl⟩, fun _ _ frame hx hy => draw_congr hx hy frame⟩

/-- Witness for C9: the initial state and a state with different velocities
draw the same 4-byte buffer. -/
theorem draw_touches_only_buffer_witness :
    World.new.draw [0, 0, 0, 0] = (World.mk 24 16 (-5) 7).draw [0, 0, 0, 0] :=
  draw_touches_only_buffer.2 World.new (World.mk 24 16 (-5) 7) [0, 0, 0, 0] rfl rfl

/-- C10: for a buffer of any length `n`, `draw` is total (no length check, no
error): it preserves the length, the first `4 * (n / 4)` bytes become the
complete 4-byte pixel groups — including groups with pixel index at or beyond
`WIDTH * HEIGHT` when `n` exceeds `WIDTH * HEIGHT * 4` — and the trailing
`n % 4` bytes are unchanged. -/
theorem draw_total_chunk_structure (w : World) (frame : List Nat) :
    (w.draw frame).length = frame.length ∧
    (w.draw frame).take (4 * (frame.length / 4)) = pixelsFrom w 0 (frame.length / 4) ∧
    (w.draw frame).drop (4 * (frame.length / 4)) = frame.drop (4 * (frame.length / 4)) := by
  refine ⟨draw_length w frame, ?_, draw_drop_tail w frame⟩
  rw [draw_eq, List.take_left' (pixelsFrom_length w (frame.length / 4) 0)]
